import Mathlib

/-!
Verification of the real-time audio/MIDI core of the thopman/circle repository.

The development shallowly embeds the C++ sources:
  * src/app/wm8960-circle/audio.cpp / audio.hpp  (CAudio: sample format
    conversion, double-buffered chunk exchange),
  * src/unnamed/part_001 (CPerformanceMonitor: timing statistics),
  * src/lib/sound/wm8960soundcontroller.cpp (CWM8960SoundController),
  * the MIDI byte parser, whose implementation is absent from src/ and is
    therefore modelled from the specification.

Machine integers are embedded as Nat/Int with explicit wrap-around where the
code can wrap; 32-bit float arithmetic is idealized as exact rational
arithmetic (the constants 8388607 = 2^23 - 1 and the clamping bounds are exact
in both semantics at every input the theorems below evaluate).
-/

namespace Circle

/-! ## Sample format conversion (audio.cpp lines 61-103)

`u32_to_s24` and `s24_to_u32` are CAudio's packing helpers.  C's
`(int32_t)` cast of an out-of-int32-range unsigned value is two's complement
reinterpretation, embedded as `toInt32`.  -/

/-- Reinterpret a 32-bit unsigned value as a signed two's complement int32,
as the C cast `(int32_t)` does. -/
def toInt32 (n : Nat) : Int :=
  if n % 4294967296 < 2147483648 then ((n % 4294967296 : Nat) : Int)
  else ((n % 4294967296 : Nat) : Int) - 4294967296

/-- CAudio::u32_to_s24 (audio.cpp lines 61-68): if bit 23 is set, OR in
0xFF000000 and reinterpret as int32 (sign extension); otherwise mask to the
low 24 bits. -/
def u32_to_s24 (value : Nat) : Int :=
  if value.testBit 23 then toInt32 (value ||| 0xFF000000)
  else ((value &&& 0x00FFFFFF : Nat) : Int)

/-- CAudio::s24_to_u32 (audio.cpp lines 71-74): `(uint32_t)(value & 0x00FFFFFF)`.
On two's complement, AND with 0x00FFFFFF keeps the low 24 bits, i.e. the
residue of `value` modulo 2^24 (nonnegative). -/
def s24_to_u32 (value : Int) : Nat :=
  (value % 16777216).toNat

/-! ### Bit-level helper lemmas -/

theorem or_eq_ones_of_lt {x k : Nat} (h : x < 2 ^ k) : x ||| (2 ^ k - 1) = 2 ^ k - 1 := by
  apply Nat.eq_of_testBit_eq
  intro i
  rw [Nat.testBit_or, Nat.testBit_two_pow_sub_one]
  by_cases hi : i < k
  · simp [hi]
  · have hx : x.testBit i = false :=
      Nat.testBit_lt_two_pow (Nat.lt_of_lt_of_le h (Nat.pow_le_pow_right (by norm_num) (Nat.le_of_not_lt hi)))
    simp [hi, hx]

theorem or_lt_two_pow {a b k : Nat} (ha : a < 2 ^ k) (hb : b < 2 ^ k) : a ||| b < 2 ^ k := by
  apply Nat.lt_pow_two_of_testBit
  intro i hi
  rw [Nat.testBit_or]
  have h1 : a.testBit i = false :=
    Nat.testBit_lt_two_pow (Nat.lt_of_lt_of_le ha (Nat.pow_le_pow_right (by norm_num) hi))
  have h2 : b.testBit i = false :=
    Nat.testBit_lt_two_pow (Nat.lt_of_lt_of_le hb (Nat.pow_le_pow_right (by norm_num) hi))
  simp [h1, h2]

/-- Distributivity of OR over a split at bit position k: low and high parts
combine independently. -/
theorem or_split {a c b d k : Nat} (hb : b < 2 ^ k) (hd : d < 2 ^ k) :
    (2 ^ k * a + b) ||| (2 ^ k * c + d) = 2 ^ k * (a ||| c) + (b ||| d) := by
  apply Nat.eq_of_testBit_eq
  intro i
  rw [Nat.testBit_or, Nat.testBit_mul_pow_two_add _ hb, Nat.testBit_mul_pow_two_add _ hd,
    Nat.testBit_mul_pow_two_add _ (or_lt_two_pow hb hd)]
  by_cases hi : i < k
  · simp [hi, Nat.testBit_or]
  · simp [hi, Nat.testBit_or]

/-- ORing 0xFF000000 into a 32-bit word forces the top byte and keeps the low
24 bits. -/
theorem or_ff000000 (m : Nat) (hm : m < 4294967296) :
    m ||| 0xFF000000 = 4278190080 + m % 16777216 := by
  have hsplit : m = 2 ^ 24 * (m / 2 ^ 24) + m % 2 ^ 24 := (Nat.div_add_mod m (2 ^ 24)).symm
  have hmod : m % 2 ^ 24 < 2 ^ 24 := Nat.mod_lt _ (by norm_num)
  have hhi : m / 2 ^ 24 < 2 ^ 8 := by
    have : m < 2 ^ 24 * 2 ^ 8 := by norm_num at hm ⊢; omega
    exact Nat.div_lt_of_lt_mul this
  have hconst : (0xFF000000 : Nat) = 2 ^ 24 * 255 + 0 := by norm_num
  calc m ||| 0xFF000000
      = (2 ^ 24 * (m / 2 ^ 24) + m % 2 ^ 24) ||| (2 ^ 24 * 255 + 0) := by
        rw [← hsplit, ← hconst]
    _ = 2 ^ 24 * ((m / 2 ^ 24) ||| 255) + (m % 2 ^ 24 ||| 0) :=
        or_split hmod (by norm_num)
    _ = 4278190080 + m % 16777216 := by
        have h255 : (255 : Nat) = 2 ^ 8 - 1 := by norm_num
        rw [h255, or_eq_ones_of_lt hhi, Nat.or_zero]
        norm_num

/-- For a value below 2^24, bit 23 reads off whether the value is at least 2^23. -/
theorem testBit_23_of_lt {y : Nat} (hy : y < 16777216) :
    y.testBit 23 = decide (8388608 ≤ y) := by
  rw [Nat.testBit_to_div_mod, show (2 : Nat) ^ 23 = 8388608 by norm_num]
  rw [decide_eq_decide]
  omega

/-- Arithmetic characterization of `u32_to_s24` on 32-bit inputs: the low
24 bits, sign-extended at bit 23. -/
theorem u32_to_s24_eq (m : Nat) (hm : m < 4294967296) :
    u32_to_s24 m =
      if m % 16777216 < 8388608 then ((m % 16777216 : Nat) : Int)
      else ((m % 16777216 : Nat) : Int) - 16777216 := by
  have hmod : m % 16777216 < 16777216 := Nat.mod_lt _ (by norm_num)
  have hbit : m.testBit 23 = decide (8388608 ≤ m % 16777216) := by
    have e1 : (m % 16777216).testBit 23 = decide (8388608 ≤ m % 16777216) :=
      testBit_23_of_lt hmod
    have e2 := Nat.testBit_mod_two_pow m 24 23
    norm_num at e2
    rw [← e2, e1]
  rw [u32_to_s24, hbit]
  rcases Nat.lt_or_ge (m % 16777216) 8388608 with h | h
  · rw [if_pos h]
    have hdec : decide (8388608 ≤ m % 16777216) = false := by
      rw [decide_eq_false_iff_not]; omega
    rw [hdec, if_neg (by simp)]
    have hmask : m &&& 0x00FFFFFF = m % 16777216 := by
      have := Nat.and_pow_two_sub_one_eq_mod m 24
      norm_num at this
      exact this
    rw [hmask]
  · rw [if_neg (Nat.not_lt.mpr h)]
    have hdec : decide (8388608 ≤ m % 16777216) = true := by
      rw [decide_eq_true_iff]; omega
    rw [hdec, if_pos rfl]
    rw [toInt32, or_ff000000 m hm]
    have hn : 4278190080 + m % 16777216 < 4294967296 := by omega
    have hmod32 : (4278190080 + m % 16777216) % 4294967296 = 4278190080 + m % 16777216 :=
      Nat.mod_eq_of_lt hn
    rw [hmod32]
    have : ¬ (4278190080 + m % 16777216 < 2147483648) := by omega
    rw [if_neg this]
    push_cast
    omega

/-- Every decoded sample lies in the signed 24-bit range. -/
theorem u32_to_s24_range (m : Nat) (hm : m < 4294967296) :
    -8388608 ≤ u32_to_s24 m ∧ u32_to_s24 m ≤ 8388607 := by
  have hmod : m % 16777216 < 16777216 := Nat.mod_lt _ (by norm_num)
  rw [u32_to_s24_eq m hm]
  split <;> constructor <;> omega

/-- Packing a signed 24-bit value and unpacking it is the identity. -/
theorem s24_u32_roundtrip (v : Int) (h1 : -8388608 ≤ v) (h2 : v ≤ 8388607) :
    u32_to_s24 (s24_to_u32 v) = v := by
  have hmod : v % 16777216 = if 0 ≤ v then v else v + 16777216 := by
    split <;> omega
  have hnat : s24_to_u32 v < 4294967296 := by
    rw [s24_to_u32]; omega
  rw [u32_to_s24_eq _ hnat, s24_to_u32]
  rcases le_or_lt 0 v with hv | hv
  · have hvv : v % 16777216 = v := by omega
    have htn : (v % 16777216).toNat = v.toNat := by omega
    have hlt : v.toNat < 8388608 := by omega
    have : v.toNat % 16777216 = v.toNat := Nat.mod_eq_of_lt (by omega)
    rw [htn, this, if_pos hlt]
    omega
  · have hvv : v % 16777216 = v + 16777216 := by omega
    have htn : (v % 16777216).toNat = (v + 16777216).toNat := by rw [hvv]
    have hge : ¬ ((v + 16777216).toNat % 16777216 < 8388608) := by
      have : (v + 16777216).toNat % 16777216 = (v + 16777216).toNat := Nat.mod_eq_of_lt (by omega)
      omega
    rw [htn, if_neg hge]
    have : (v + 16777216).toNat % 16777216 = (v + 16777216).toNat := Nat.mod_eq_of_lt (by omega)
    omega

/-! ## Float/integer conversion (audio.cpp lines 77-103)

`convertInputToFloat` computes `(float)u32_to_s24(raw) * (1.0f/8388607.0f)`
per sample; `convertFloatToOutput` clamps to [-1, 1], multiplies by 8388607.0f
and casts to int32 (truncation toward zero).  The per-sample maps are embedded
below over exact rationals.  The spec names them ToFloat / FromFloat. -/

/-- Truncation toward zero, the semantics of C's `(int32_t)` cast of a float. -/
def truncToInt (q : ℚ) : Int :=
  if 0 ≤ q then ⌊q⌋ else -⌊-q⌋

/-- The clamp `std::max(-1.0f, std::min(1.0f, x))` of convertFloatToOutput
(audio.cpp line 94). -/
def clampSample (x : ℚ) : ℚ := max (-1) (min 1 x)

/-- FromFloat: the float-to-packed integer conversion performed per sample by
CAudio::convertFloatToOutput (audio.cpp lines 94-98): clamp, scale by
8388607.0f, truncate toward zero. -/
def FromFloat (x : ℚ) : Int := truncToInt (clampSample x * 8388607)

/-- ToFloat: the packed-to-float conversion performed per sample by
CAudio::convertInputToFloat (audio.cpp lines 79-83): sign-extended decode,
then scale by 1.0f/8388607.0f. -/
def ToFloat (raw : Nat) : ℚ := (u32_to_s24 raw : ℚ) * (1 / 8388607)

theorem truncToInt_le_abs (q : ℚ) : |(truncToInt q : ℚ) - q| < 1 := by
  rw [truncToInt]
  split
  · rw [abs_sub_lt_iff]
    constructor
    · linarith [Int.floor_le q]
    · linarith [Int.lt_floor_add_one q]
  · rw [abs_sub_lt_iff]
    push_cast
    constructor
    · linarith [Int.lt_floor_add_one (-q)]
    · linarith [Int.floor_le (-q)]

theorem truncToInt_abs_le (q : ℚ) : |(truncToInt q : ℚ)| ≤ |q| := by
  rw [truncToInt]
  split
  · rename_i h
    rw [abs_of_nonneg h, abs_of_nonneg]
    · exact_mod_cast Int.floor_le q
    · exact_mod_cast Int.floor_nonneg.mpr h
  · rename_i h
    push_neg at h
    have h1 : (0 : ℚ) ≤ -q := by linarith
    have h2 : (0 : ℚ) ≤ (⌊-q⌋ : ℚ) := by exact_mod_cast Int.floor_nonneg.mpr h1
    have h3 : (⌊-q⌋ : ℚ) ≤ -q := Int.floor_le _
    rw [abs_of_nonpos (le_of_lt h), abs_of_nonpos (by push_cast; linarith)]
    push_cast
    linarith

/-- The integer code produced by FromFloat always lies in
[-8388607, 8388607]: the conversion can never wrap a 24-bit field. -/
theorem FromFloat_range (x : ℚ) : -8388607 ≤ FromFloat x ∧ FromFloat x ≤ 8388607 := by
  have hc1 : -1 ≤ clampSample x := le_max_left _ _
  have hc2 : clampSample x ≤ 1 := by
    rw [clampSample, max_le_iff]
    constructor
    · norm_num
    · exact min_le_left _ _
  have habs : |clampSample x * 8388607| ≤ 8388607 := by
    rw [abs_mul, abs_of_nonneg (by norm_num : (0 : ℚ) ≤ 8388607)]
    have hab : |clampSample x| ≤ 1 := abs_le.mpr ⟨hc1, hc2⟩
    have := mul_le_mul_of_nonneg_right hab (by norm_num : (0 : ℚ) ≤ 8388607)
    linarith
  have h := truncToInt_abs_le (clampSample x * 8388607)
  have h2 : |(FromFloat x : ℚ)| ≤ 8388607 := le_trans h habs
  rw [abs_le] at h2
  constructor
  · exact_mod_cast h2.1
  · exact_mod_cast h2.2

/-! ## Double-buffered chunk exchange (audio.cpp lines 160-256, audio.hpp)

CAudio holds two raw input buffers of AUDIO_BLOCK_SIZE = 256 u32 samples, a
slot selector `useBufferA` and a pointer `currentInputBuffer` (modelled here
as the Bool `currentInputIsA`): PutChunk copies the delivered block into the
buffer selected by `useBufferA` and points `currentInputBuffer` at it;
GetChunk reads `currentInputBuffer`, writes the attenuated samples into the
caller's block, flips `useBufferA` and repoints both current pointers.  The
live GetChunk (lines 201-256) never consults the Faust engine pointer; the
field `hasEngine` models `aCircleFaustDSP != nullptr`. -/

structure AudioState where
  inputBuffer_A : Fin 256 → Nat
  inputBuffer_B : Fin 256 → Nat
  useBufferA : Bool
  currentInputIsA : Bool
  currentOutputIsA : Bool
  hasEngine : Bool

/-- CAudio::PutChunk (audio.cpp lines 160-196): reject a block whose size is
not AUDIO_BLOCK_SIZE = 256; otherwise copy it into the buffer selected by
`useBufferA` and point `currentInputBuffer` at that buffer.  (The
remainder of the function is diagnostic logging only.) -/
def PutChunk (s : AudioState) (pBuffer : Fin 256 → Nat) (nChunkSize : Nat) : AudioState :=
  if nChunkSize ≠ 256 then s
  else if s.useBufferA then { s with inputBuffer_A := pBuffer, currentInputIsA := true }
  else { s with inputBuffer_B := pBuffer, currentInputIsA := false }

/-- Result of CAudio::GetChunk: successor state, the samples written into the
caller's block (`none` when the block is untouched), and the return value. -/
structure GetChunkResult where
  state : AudioState
  written : Option (Fin 256 → Nat)
  ret : Nat

/-- CAudio::GetChunk (audio.cpp lines 201-256): reject a block of the wrong
size, returning 0 without writing; otherwise emit each sample of the current
input buffer attenuated by half (signed 24-bit decode, int32 division by 2
truncating toward zero, re-pack), then flip `useBufferA` and repoint both
current-buffer pointers at the newly selected buffers. -/
def GetChunk (s : AudioState) (nChunkSize : Nat) : GetChunkResult :=
  if nChunkSize ≠ 256 then ⟨s, none, 0⟩
  else
    let inBuf := if s.currentInputIsA then s.inputBuffer_A else s.inputBuffer_B
    let out : Fin 256 → Nat := fun i => s24_to_u32 (Int.tdiv (u32_to_s24 (inBuf i)) 2)
    let newUse := !s.useBufferA
    ⟨{ s with useBufferA := newUse, currentInputIsA := newUse, currentOutputIsA := newUse },
      some out, 256⟩

/-- One full period: the interrupt path delivers the input block via PutChunk,
then fetches the output block via GetChunk. -/
def stepPeriod (s : AudioState) (c : Fin 256 → Nat) : AudioState :=
  (GetChunk (PutChunk s c 256) 256).state

/-- State after the first k periods, period j receiving input block cs j. -/
def stateAfterPeriods (s₀ : AudioState) (cs : Nat → Fin 256 → Nat) : Nat → AudioState
  | 0 => s₀
  | k + 1 => stepPeriod (stateAfterPeriods s₀ cs k) (cs k)

/-- The raw samples GetChunk reads during a period that starts in state s
with input block c: the contents of `currentInputBuffer` after PutChunk. -/
def consumedInPeriod (s : AudioState) (c : Fin 256 → Nat) : Fin 256 → Nat :=
  let s1 := PutChunk s c 256
  if s1.currentInputIsA then s1.inputBuffer_A else s1.inputBuffer_B

/-- A concrete initial state: zeroed buffers, buffer A selected, no engine
bound (`aCircleFaustDSP == nullptr`). -/
def audioStateNoEngine : AudioState :=
  ⟨fun _ => 0, fun _ => 0, true, true, true, false⟩

/-- A concrete input block whose samples all hold the raw value 2. -/
def blockOfTwos : Fin 256 → Nat := fun _ => 2

/-! ## Performance monitor (src/unnamed/part_001, performancemonitor.h)

CPerformanceMonitor stores per-period timing samples in a circular buffer of
capacity m_nMaxSamples with running index m_nCurrentIndex and fill level
m_nValidSamples.  The three parallel arrays (clock cycles, processing times,
CPU usages) are filled in lockstep; the embedding keeps the representative
m_pCPUUsages array, whose accessors the claims name.  The sample value itself
is derived from hardware clock reads (CTimer::GetClockTicks), so EndTiming is
parameterized by the value it stores. -/

structure PerfState where
  maxSamples : Nat
  currentIndex : Nat
  validSamples : Nat
  cpuUsages : Nat → ℚ
  timingActive : Bool

/-- The constructor state (part_001 lines 15-45): zeroed arrays, index 0,
no valid samples, no timing in flight.  ResetStatistics restores this. -/
def mkPerfMon (maxSamples : Nat) : PerfState :=
  ⟨maxSamples, 0, 0, fun _ => 0, false⟩

/-- CPerformanceMonitor::StartTiming (lines 54-64): records the start tick and
marks a timing as active. -/
def StartTiming (s : PerfState) : PerfState :=
  { s with timingActive := true }

/-- CPerformanceMonitor::EndTiming (lines 71-106): a no-op without an open
StartTiming; otherwise store the derived sample at the current index, advance
the index modulo capacity, and grow the valid count while below capacity. -/
def EndTiming (s : PerfState) (cpuUsage : ℚ) : PerfState :=
  if s.timingActive = false then s
  else
    { s with
      cpuUsages := fun j => if j = s.currentIndex then cpuUsage else s.cpuUsages j,
      currentIndex := (s.currentIndex + 1) % s.maxSamples,
      validSamples :=
        if s.validSamples < s.maxSamples then s.validSamples + 1 else s.validSamples,
      timingActive := false }

/-- n completed timings (StartTiming; EndTiming pairs), timing j storing v j. -/
def completedTimings (maxSamples : Nat) (v : Nat → ℚ) : Nat → PerfState
  | 0 => mkPerfMon maxSamples
  | n + 1 => EndTiming (StartTiming (completedTimings maxSamples v n)) (v n)

/-- CPerformanceMonitor::CalculateAverage (lines 194-203): sum the first
count entries and divide. -/
def CalculateAverage (data : Nat → ℚ) (count : Nat) : ℚ :=
  if count = 0 then 0 else (∑ i in Finset.range count, data i) / count

/-- Fold of CPerformanceMonitor::CalculateMax's loop over entries 0..k. -/
def calcMaxAux (data : Nat → ℚ) : Nat → ℚ
  | 0 => data 0
  | k + 1 => if data (k + 1) > calcMaxAux data k then data (k + 1) else calcMaxAux data k

/-- CPerformanceMonitor::CalculateMax (lines 205-216): running maximum of the
first count entries, seeded with entry 0. -/
def CalculateMax (data : Nat → ℚ) (count : Nat) : ℚ :=
  if count = 0 then 0 else calcMaxAux data (count - 1)

/-- CPerformanceMonitor::GetAverageCPUUsagePercent (lines 108-112). -/
def GetAverageCPUUsagePercent (s : PerfState) : ℚ :=
  if s.validSamples = 0 then 0 else CalculateAverage s.cpuUsages s.validSamples

/-- CPerformanceMonitor::GetMaxCPUUsagePercent (lines 114-118). -/
def GetMaxCPUUsagePercent (s : PerfState) : ℚ :=
  if s.validSamples = 0 then 0 else CalculateMax s.cpuUsages s.validSamples

/-- Index of the most recent write that landed in slot j, among the first n
writes of a circular buffer of the given capacity. -/
def lastWrite (max n j : Nat) : Nat := n - 1 - ((n - 1 - j) % max)

theorem lastWrite_shift {max n j : Nat} (hmax : 0 < max) (hj : j < max) (hjn : j < n)
    (hne : j ≠ n % max) : lastWrite max (n + 1) j = lastWrite max n j := by
  rw [lastWrite, lastWrite]
  have htj : (n - 1 - j) + j + 1 = n := by omega
  have hr : (n - 1 - j) % max < max := Nat.mod_lt _ hmax
  have hdecomp := Nat.div_add_mod (n - 1 - j) max
  rcases Nat.lt_or_ge ((n - 1 - j) % max + 1) max with hlt | hge
  · have h1 : n + 1 - 1 - j = (n - 1 - j) + 1 := by omega
    have h2 : ((n - 1 - j) + 1) % max = (n - 1 - j) % max + 1 := by
      conv_lhs =>
        rw [show (n - 1 - j) + 1 = max * ((n - 1 - j) / max) + ((n - 1 - j) % max + 1) by omega]
      rw [Nat.mul_add_mod]
      exact Nat.mod_eq_of_lt hlt
    rw [h1, h2]
    omega
  · exfalso
    apply hne
    have hmul : max * ((n - 1 - j) / max + 1) = max * ((n - 1 - j) / max) + max := by ring
    have hn : n = j + max * ((n - 1 - j) / max + 1) := by omega
    rw [hn, Nat.add_mul_mod_self_left, Nat.mod_eq_of_lt hj]

theorem lastWrite_self {max n : Nat} :
    lastWrite max (n + 1) (n % max) = n := by
  rw [lastWrite]
  have hd := Nat.div_add_mod n max
  have h1 : n + 1 - 1 - n % max = max * (n / max) := by omega
  rw [h1, Nat.mul_mod_right]
  omega

/-- For a full buffer the last write into any slot lies in the window of the
most recent `max` writes. -/
theorem lastWrite_window {max n j : Nat} (hmax : 0 < max) (_hj : j < max) (hn : max ≤ n) :
    n - max ≤ lastWrite max n j ∧ lastWrite max n j < n := by
  have hr : (n - 1 - j) % max < max := Nat.mod_lt _ hmax
  rw [lastWrite]
  omega

/-- Inverse direction: for any write index m in the window of the most recent
`max` writes, the last write into slot m % max is m itself. -/
theorem lastWrite_mod_eq {max n m : Nat} (hmax : 0 < max) (h1 : n - max ≤ m) (h2 : m < n)
    (hn : max ≤ n) : lastWrite max n (m % max) = m := by
  have hd := Nat.div_add_mod m max
  have hr : m % max < max := Nat.mod_lt _ hmax
  have key : (n - 1 - m % max) % max = n - 1 - m := by
    have he : n - 1 - m % max = (n - 1 - m) + max * (m / max) := by omega
    rw [he, Nat.add_mul_mod_self_left, Nat.mod_eq_of_lt (by omega)]
  rw [lastWrite, key]
  omega

/-- The slot a window write lands in, read back: slot number of the last
write is the write index reduced modulo capacity. -/
theorem lastWrite_mod_self {max n j : Nat} (hmax : 0 < max) (hj : j < max) (hjn : j < n) :
    lastWrite max n j % max = j := by
  have hd := Nat.div_add_mod (n - 1 - j) max
  have hr : (n - 1 - j) % max < max := Nat.mod_lt _ hmax
  have he : lastWrite max n j = j + max * ((n - 1 - j) / max) := by
    rw [lastWrite]
    omega
  rw [he, Nat.add_mul_mod_self_left, Nat.mod_eq_of_lt hj]

theorem calcMaxAux_exists (data : Nat → ℚ) (k : Nat) :
    ∃ i, i ≤ k ∧ calcMaxAux data k = data i := by
  induction k with
  | zero => exact ⟨0, le_refl 0, rfl⟩
  | succ k ih =>
    obtain ⟨i, hi, he⟩ := ih
    rw [calcMaxAux]
    split
    · exact ⟨k + 1, le_refl _, rfl⟩
    · exact ⟨i, Nat.le_succ_of_le hi, he⟩

theorem le_calcMaxAux (data : Nat → ℚ) {k i : Nat} (h : i ≤ k) :
    data i ≤ calcMaxAux data k := by
  induction k with
  | zero =>
    have : i = 0 := Nat.le_zero.mp h
    rw [this, calcMaxAux]
  | succ k ih =>
    rw [calcMaxAux]
    rcases Nat.lt_or_ge i (k + 1) with hik | hik
    · have hle := ih (by omega)
      split
      · rename_i hgt
        linarith
      · exact hle
    · have hieq : i = k + 1 := by omega
      rw [hieq]
      split
      · exact le_refl _
      · rename_i hgt
        linarith [not_lt.mp hgt]

/-- State invariant after n completed timings: index and fill level track n,
and slot j holds the sample of the most recent write that landed there. -/
theorem completedTimings_spec (max : Nat) (v : Nat → ℚ) (hmax : 0 < max) (n : Nat) :
    (completedTimings max v n).maxSamples = max ∧
    (completedTimings max v n).currentIndex = n % max ∧
    (completedTimings max v n).validSamples = min n max ∧
    (completedTimings max v n).timingActive = false ∧
    (∀ j, (completedTimings max v n).cpuUsages j =
      if j < max ∧ j < n then v (lastWrite max n j) else 0) := by
  induction n with
  | zero =>
    refine ⟨rfl, by simp [completedTimings, mkPerfMon], by simp [completedTimings, mkPerfMon],
      rfl, ?_⟩
    intro j
    simp [completedTimings, mkPerfMon]
  | succ n ih =>
    obtain ⟨hms, hci, hvs, hta, hcu⟩ := ih
    have hsucc : (n + 1) % max = (n % max + 1) % max := by
      conv_lhs => rw [show n + 1 = max * (n / max) + (n % max + 1) from by
        have := Nat.div_add_mod n max; omega]
      exact Nat.mul_add_mod _ _ _
    have hunfold : completedTimings max v (n + 1) =
        EndTiming (StartTiming (completedTimings max v n)) (v n) := rfl
    refine ⟨?_, ?_, ?_, ?_, ?_⟩
    · rw [hunfold, EndTiming, StartTiming]
      simp [hms]
    · rw [hunfold, EndTiming, StartTiming]
      simp [hms, hci, hsucc.symm]
    · rw [hunfold, EndTiming, StartTiming]
      simp only [if_neg (by simp : ¬ (true = false))]
      simp only [hms, hvs]
      split <;> omega
    · rw [hunfold, EndTiming, StartTiming]
      simp
    · intro j
      rw [hunfold, EndTiming, StartTiming]
      simp only [if_neg (by simp : ¬ (true = false))]
      simp only [hci, hcu]
      by_cases hj : j = n % max
      · have hjm : j < max := by rw [hj]; exact Nat.mod_lt _ hmax
        have hjn : j < n + 1 := by
          have := Nat.mod_le n max
          omega
        rw [if_pos hj, if_pos ⟨hjm, hjn⟩, hj, lastWrite_self]
      · rw [if_neg hj]
        by_cases hcase : j < max ∧ j < n
        · rw [if_pos hcase, if_pos ⟨hcase.1, by omega⟩,
            lastWrite_shift hmax hcase.1 hcase.2 hj]
        · rw [if_neg hcase]
          by_cases hcase2 : j < max ∧ j < n + 1
          · exfalso
            have hjeq : j = n := by omega
            apply hj
            rw [hjeq, Nat.mod_eq_of_lt (by omega)]
          · rw [if_neg hcase2]

/-- Once the buffer has wrapped, its contents sum to the sum of the most
recent `max` samples. -/
theorem buffer_window_sum (max n : Nat) (v : Nat → ℚ) (hmax : 0 < max) (hn : max ≤ n) :
    ∑ j in Finset.range max, (completedTimings max v n).cpuUsages j
      = ∑ i in Finset.range max, v (n - max + i) := by
  have hspec := (completedTimings_spec max v hmax n).2.2.2.2
  have h1 : ∀ j ∈ Finset.range max,
      (completedTimings max v n).cpuUsages j = v (lastWrite max n j) := by
    intro j hj
    rw [Finset.mem_range] at hj
    rw [hspec j, if_pos ⟨hj, by omega⟩]
  rw [Finset.sum_congr rfl h1]
  refine Finset.sum_nbij' (fun j => lastWrite max n j - (n - max))
    (fun i => (n - max + i) % max) ?_ ?_ ?_ ?_ ?_
  · intro j hj
    rw [Finset.mem_range] at hj ⊢
    show lastWrite max n j - (n - max) < max
    have hw := lastWrite_window hmax hj hn
    omega
  · intro i _
    rw [Finset.mem_range]
    exact Nat.mod_lt _ hmax
  · intro j hj
    rw [Finset.mem_range] at hj
    show (n - max + (lastWrite max n j - (n - max))) % max = j
    have hw := lastWrite_window hmax hj hn
    have he : n - max + (lastWrite max n j - (n - max)) = lastWrite max n j := by omega
    rw [he]
    exact lastWrite_mod_self hmax hj (by omega)
  · intro i hi
    rw [Finset.mem_range] at hi
    show lastWrite max n ((n - max + i) % max) - (n - max) = i
    have he := lastWrite_mod_eq hmax (show n - max ≤ n - max + i by omega)
      (show n - max + i < n by omega) hn
    rw [he]
    omega
  · intro j hj
    rw [Finset.mem_range] at hj
    have hw := lastWrite_window hmax hj hn
    have he : n - max + (lastWrite max n j - (n - max)) = lastWrite max n j := by omega
    rw [he]

/-- Once the buffer has wrapped, its running maximum is the maximum of the
most recent `max` samples: it is attained by one of them and bounds each. -/
theorem buffer_window_max (max n : Nat) (v : Nat → ℚ) (hmax : 0 < max) (hn : max ≤ n) :
    (∃ i, i < max ∧
      CalculateMax (completedTimings max v n).cpuUsages max = v (n - max + i)) ∧
    (∀ i, i < max →
      v (n - max + i) ≤ CalculateMax (completedTimings max v n).cpuUsages max) := by
  have hspec := (completedTimings_spec max v hmax n).2.2.2.2
  have hval : ∀ j, j < max →
      (completedTimings max v n).cpuUsages j = v (lastWrite max n j) := by
    intro j hj
    rw [hspec j, if_pos ⟨hj, by omega⟩]
  rw [CalculateMax, if_neg (by omega)]
  constructor
  · obtain ⟨i₀, hi₀, he⟩ := calcMaxAux_exists (completedTimings max v n).cpuUsages (max - 1)
    have hi₀m : i₀ < max := by omega
    have hw := lastWrite_window hmax hi₀m hn
    refine ⟨lastWrite max n i₀ - (n - max), by omega, ?_⟩
    rw [he, hval i₀ hi₀m]
    have harg : n - max + (lastWrite max n i₀ - (n - max)) = lastWrite max n i₀ := by omega
    rw [harg]
  · intro i hi
    have hj : (n - max + i) % max < max := Nat.mod_lt _ hmax
    have he := lastWrite_mod_eq hmax (show n - max ≤ n - max + i by omega)
      (show n - max + i < n by omega) hn
    have hv := hval _ hj
    rw [he] at hv
    rw [← hv]
    exact le_calcMaxAux _ (by omega)

/-! ## WM8960 sound controller (wm8960soundcontroller.cpp lines 265-488)

The enumerations mirror Circle's CSoundController interface (the base class
lives outside this repository; `IsInputJack` holds exactly for the input-side
jacks).  `WriteReg` performs an I2C register write; the embedding assumes the
bus transfer succeeds and logs the (register, value) pair, so that a claim can
observe whether a call wrote any register. -/

inductive TControl
  | ControlMute
  | ControlVolume
  | ControlALC
deriving DecidableEq

inductive TJack
  | JackDefaultOut
  | JackLineOut
  | JackSpeaker
  | JackHeadphone
  | JackHDMI
  | JackSPDIF
  | JackDefaultIn
  | JackLineIn
  | JackMicrophone
deriving DecidableEq

inductive TChannel
  | ChannelAll
  | ChannelLeft
  | ChannelRight
deriving DecidableEq

open TControl TJack TChannel

/-- CSoundController::IsInputJack (Circle base class): the input-side jacks. -/
def IsInputJack : TJack → Bool
  | JackDefaultIn => true
  | JackLineIn => true
  | JackMicrophone => true
  | _ => false

/-- CSoundController::TControlInfo. -/
structure TControlInfo where
  Supported : Bool
  RangeMin : Int
  RangeMax : Int
deriving DecidableEq

/-- CWM8960SoundController state: the cached input PGA volume registers
m_uchInVolume[0] and m_uchInVolume[1] (u8 each), plus a log of performed
register writes (register, 9-bit value), newest last. -/
structure ControllerState where
  inVolumeL : Nat
  inVolumeR : Nat
  regWrites : List (Nat × Nat)
deriving DecidableEq

/-- Constructor state (lines 28-39): both input volumes cached at 0x17 (0 dB),
nothing written yet. -/
def initController : ControllerState := ⟨0x17, 0x17, []⟩

/-- CWM8960SoundController::WriteReg (lines 473-488): issue the I2C write.
The bus transfer is modelled as succeeding; the write is logged. -/
def WriteReg (s : ControllerState) (reg val : Nat) : ControllerState :=
  { s with regWrites := s.regWrites ++ [(reg, val)] }

/-- CWM8960SoundController::GetControlInfo (lines 265-309). -/
def GetControlInfo (control : TControl) (jack : TJack) (channel : TChannel) : TControlInfo :=
  match control with
  | ControlMute => if IsInputJack jack then ⟨true, 0, 1⟩ else ⟨false, 0, 0⟩
  | ControlVolume => if IsInputJack jack then ⟨true, -17, 30⟩ else ⟨true, -73, 6⟩
  | ControlALC =>
      if IsInputJack jack ∧ channel = ChannelAll then ⟨true, 0, 1⟩ else ⟨false, 0, 0⟩

/-- CWM8960SoundController::SetControl (lines 312-469): returns the successor
state and the boolean result.  Volume requests are range-checked and rejected
before any write; mute requests set or clear bit 7 of the cached input volume
according to `nValue != 0` with no range check; ALC requests mirror the left
volume to the right channel and toggle register 17. -/
def SetControl (s : ControllerState) (control : TControl) (jack : TJack)
    (channel : TChannel) (nValue : Int) : ControllerState × Bool :=
  match control with
  | ControlMute =>
    if IsInputJack jack then
      let s1 :=
        if channel = ChannelLeft ∨ channel = ChannelAll then
          let vol := (s.inVolumeL &&& 0x3F) ||| (if nValue ≠ 0 then 0x80 else 0x00)
          WriteReg { s with inVolumeL := vol } 0 (0x100 ||| vol)
        else s
      let s2 :=
        if channel = ChannelRight ∨ channel = ChannelAll then
          let vol := (s1.inVolumeR &&& 0x3F) ||| (if nValue ≠ 0 then 0x80 else 0x00)
          WriteReg { s1 with inVolumeR := vol } 1 (0x100 ||| vol)
        else s1
      (s2, true)
    else (s, false)
  | ControlVolume =>
    if IsInputJack jack then
      if ¬ (-17 ≤ nValue ∧ nValue ≤ 30) then (s, false)
      else
        let uchValue := (((nValue + 17) * 100).tdiv 75).toNat % 256
        let s1 :=
          if channel = ChannelLeft ∨ channel = ChannelAll then
            let vol := (s.inVolumeL &&& 0x80) ||| uchValue
            WriteReg { s with inVolumeL := vol } 0 (0x100 ||| vol)
          else s
        let s2 :=
          if channel = ChannelRight ∨ channel = ChannelAll then
            let vol := (s1.inVolumeR &&& 0x80) ||| uchValue
            WriteReg { s1 with inVolumeR := vol } 1 (0x100 ||| vol)
          else s1
        (s2, true)
    else
      if ¬ (-73 ≤ nValue ∧ nValue ≤ 6) then (s, false)
      else
        let uchValue := (nValue + 73 + 0x30).toNat % 256
        let nRegL := if jack = JackSpeaker then 40 else 2
        let s1 :=
          if channel = ChannelLeft ∨ channel = ChannelAll then
            WriteReg s nRegL (0x100 ||| uchValue)
          else s
        let s2 :=
          if channel = ChannelRight ∨ channel = ChannelAll then
            WriteReg s1 (nRegL + 1) (0x100 ||| uchValue)
          else s1
        (s2, true)
  | ControlALC =>
    if IsInputJack jack ∧ channel = ChannelAll then
      if nValue ≠ 0 then
        let s1 := { s with inVolumeR := s.inVolumeL }
        let s2 := WriteReg s1 1 (0x100 ||| s1.inVolumeR)
        (WriteReg s2 17 0x1FB, true)
      else (WriteReg s 17 0x00B, true)
    else (s, false)

/-! ## MIDI byte-stream normalizer

CAudio::ProcessMidiByte is declared in audio.hpp (lines 53-77: parsing state
m_nSerialState, 3-byte staging buffer m_SerialMessage) but its implementation
is not present under src/; every definition in this section is therefore
modelled from the specification, sections 3 (Parser State) and 4.3. -/

/-- Modelled from the spec: normalized event types produced by the byte-stream
path, whose accepted message classes are Note On, Note Off and Control Change
(spec section 4.3). -/
inductive MidiEventType
  | NoteOn
  | NoteOff
  | ControlChange
deriving DecidableEq

/-- Modelled from the spec: a normalized MIDI event {type, channel, data1,
data2} (the timestamp field is supplied by the sink at dispatch and carries
no parser state). -/
structure MidiEvent where
  type : MidiEventType
  channel : Nat
  data1 : Nat
  data2 : Nat
deriving DecidableEq

/-- Modelled from the spec: parser state {Idle, ExpectData1, ExpectData2}
(spec section 3, Parser State). -/
inductive ParserState
  | Idle
  | ExpectData1
  | ExpectData2
deriving DecidableEq

/-- Modelled from the spec: the per-source parsing state: the state value plus
the staged status and first data byte (the 3-byte staging buffer; the third
byte completes a message immediately and is never staged). -/
structure MidiParser where
  state : ParserState
  status : Nat
  d1 : Nat
deriving DecidableEq

/-- Modelled from the spec: the common normalization step (spec section 4.3):
channel is the low nibble of the status byte, type its high nibble, and a
Note On with zero velocity is reinterpreted as Note Off. -/
def normalizeMessage (status d1 d2 : Nat) : MidiEvent :=
  let channel := status % 16
  if status / 16 = 0x9 then
    if d2 = 0 then ⟨MidiEventType.NoteOff, channel, d1, d2⟩
    else ⟨MidiEventType.NoteOn, channel, d1, d2⟩
  else if status / 16 = 0x8 then ⟨MidiEventType.NoteOff, channel, d1, d2⟩
  else ⟨MidiEventType.ControlChange, channel, d1, d2⟩

/-- Modelled from the spec: CAudio::ProcessMidiByte (declared audio.hpp line
73, implementation absent from src/).  A byte with the status bit set always
restarts recognition on itself, discarding any in-progress message: it opens
a new message when its high nibble is an accepted class (0x9, 0x8, 0xB) and
resets to Idle otherwise.  Data bytes accumulate until the 3-byte message is
complete, which emits the normalized event and resets to Idle. -/
def processMidiByte (p : MidiParser) (b : Nat) : MidiParser × Option MidiEvent :=
  if 0x80 ≤ b then
    if b / 16 = 0x9 ∨ b / 16 = 0x8 ∨ b / 16 = 0xB then
      (⟨ParserState.ExpectData1, b, 0⟩, none)
    else (⟨ParserState.Idle, 0, 0⟩, none)
  else
    match p.state with
    | ParserState.Idle => (p, none)
    | ParserState.ExpectData1 => (⟨ParserState.ExpectData2, p.status, b⟩, none)
    | ParserState.ExpectData2 =>
        (⟨ParserState.Idle, 0, 0⟩, some (normalizeMessage p.status p.d1 b))

/-- Modelled from the spec: feeding a byte list through the parser in arrival
order, collecting the emitted events in order. -/
def feedBytes (p : MidiParser) : List Nat → MidiParser × List MidiEvent
  | [] => (p, [])
  | b :: rest =>
      let r1 := processMidiByte p b
      let r2 := feedBytes r1.1 rest
      (r2.1, (match r1.2 with | none => [] | some e => [e]) ++ r2.2)

/-- Modelled from the spec: the parser starts Idle with an empty staging
buffer. -/
def initMidi : MidiParser := ⟨ParserState.Idle, 0, 0⟩

/-! ## Claims -/

/-- C1 (counterexample): with no Processing Engine bound and a correct-size
period whose raw input samples all hold 2, GetChunk hands back 1 in every
slot, not the input value 2 — the live GetChunk attenuates by half instead of
passing through. -/
theorem claim_C1_counterexample :
    audioStateNoEngine.hasEngine = false ∧
    Option.map (fun o => o 0)
        (GetChunk (PutChunk audioStateNoEngine blockOfTwos 256) 256).written = some 1 ∧
    blockOfTwos 0 = 2 := by
  refine ⟨rfl, ?_, rfl⟩
  decide

/-- C1 (amended): for every call with the correct chunk size — whether or not
a Processing Engine is bound — the output block handed back by GetChunk equals
the input block of that same period with every sample attenuated by half
(signed 24-bit decode, int32 division by two truncating toward zero, repack);
exact pass-through does not hold, but the same-period correspondence does. -/
theorem claim_C1_attenuated_same_period (s : AudioState) (c : Fin 256 → Nat) :
    (GetChunk (PutChunk s c 256) 256).written
      = some (fun i => s24_to_u32 (Int.tdiv (u32_to_s24 (c i)) 2)) := by
  rw [PutChunk, GetChunk]
  cases hb : s.useBufferA <;> simp

/-- C2 (counterexample): for the input -2.0 < -1.0, the conversion yields
-8388607 = -(2^23 - 1), which is not the minimum representable 24-bit code
-8388608 = -2^23. -/
theorem claim_C2_counterexample :
    FromFloat (-2) = -8388607 ∧ FromFloat (-2) ≠ -8388608 := by
  have h : FromFloat (-2) = -8388607 := by
    rw [FromFloat, clampSample, truncToInt]
    norm_num
  exact ⟨h, by rw [h]; decide⟩

/-- C2 (amended): FromFloat saturates and never wraps: every x > 1.0 yields
the maximum representable 24-bit code 2^23 - 1; every x < -1.0 yields
-(2^23 - 1), one step above the minimum representable code (the symmetric
clamp never produces -2^23); and every output lies within
[-(2^23 - 1), 2^23 - 1]. -/
theorem claim_C2_saturation :
    (∀ x : ℚ, 1 < x → FromFloat x = 8388607) ∧
    (∀ x : ℚ, x < -1 → FromFloat x = -8388607) ∧
    (∀ x : ℚ, -8388607 ≤ FromFloat x ∧ FromFloat x ≤ 8388607) := by
  refine ⟨?_, ?_, FromFloat_range⟩
  · intro x hx
    have hcl : clampSample x = 1 := by
      rw [clampSample, min_eq_left (le_of_lt hx)]
      exact max_eq_right (by norm_num)
    rw [FromFloat, hcl, one_mul, truncToInt, if_pos (by norm_num)]
    exact_mod_cast Int.floor_intCast 8388607
  · intro x hx
    have hcl : clampSample x = -1 := by
      rw [clampSample, min_eq_right (by linarith)]
      exact max_eq_left (le_of_lt hx)
    rw [FromFloat, hcl, truncToInt, if_neg (by norm_num)]
    norm_num

/-- C2 (witness): saturation evaluated at 2.0 and -2.0. -/
theorem claim_C2_witness :
    ((1 : ℚ) < 2 ∧ FromFloat 2 = 8388607) ∧
    ((-2 : ℚ) < -1 ∧ FromFloat (-2) = -8388607) :=
  ⟨⟨by norm_num, claim_C2_saturation.1 2 (by norm_num)⟩,
   ⟨by norm_num, claim_C2_saturation.2.1 (-2) (by norm_num)⟩⟩

/-- C3 (counterexample): the claimed range [-1.0, 1.0) fails at both extreme
codes: raw 0x00800000 decodes to -2^23/(2^23-1) < -1.0, and raw 0x007FFFFF
decodes to exactly 1.0, not strictly below it. -/
theorem claim_C3_counterexample :
    ToFloat 8388608 < -1 ∧ ToFloat 8388607 = 1 := by
  constructor
  · rw [ToFloat, show u32_to_s24 8388608 = -8388608 by decide]
    norm_num
  · rw [ToFloat, show u32_to_s24 8388607 = 8388607 by decide]
    norm_num

/-- C3 (amended): for every 32-bit raw wire sample, ToFloat interprets the
24-bit field as a sign-extended signed integer and scales it linearly by
1/(2^23 - 1), yielding a value in the closed range [-2^23/(2^23-1), 1]: the
most negative code slightly undershoots -1.0 and the maximum code reaches
exactly 1.0. -/
theorem claim_C3_tofloat_range (raw : Nat) (h : raw < 4294967296) :
    -(8388608 / 8388607 : ℚ) ≤ ToFloat raw ∧ ToFloat raw ≤ 1 := by
  obtain ⟨h1, h2⟩ := u32_to_s24_range raw h
  have c1 : (-8388608 : ℚ) ≤ ((u32_to_s24 raw : Int) : ℚ) := by exact_mod_cast h1
  have c2 : ((u32_to_s24 raw : Int) : ℚ) ≤ 8388607 := by exact_mod_cast h2
  rw [ToFloat]
  constructor
  · have := mul_le_mul_of_nonneg_right c1 (by norm_num : (0 : ℚ) ≤ 1 / 8388607)
    linarith
  · have := mul_le_mul_of_nonneg_right c2 (by norm_num : (0 : ℚ) ≤ 1 / 8388607)
    linarith

/-- C3 (witness): the amended range evaluated at raw sample 0. -/
theorem claim_C3_witness :
    (0 : Nat) < 4294967296 ∧
    (-(8388608 / 8388607 : ℚ) ≤ ToFloat 0 ∧ ToFloat 0 ≤ 1) :=
  ⟨by decide, claim_C3_tofloat_range 0 (by decide)⟩

/-- C4: for every float f in [-1.0, 1.0], the round trip
ToFloat (FromFloat f) differs from f by at most one quantization step of the
converter, 1/(2^23 - 1) (the scale the code uses; one part in 2^23 up to one
part in 2^46). -/
theorem claim_C4_roundtrip (f : ℚ) (h1 : -1 ≤ f) (h2 : f ≤ 1) :
    |ToFloat (s24_to_u32 (FromFloat f)) - f| ≤ 1 / 8388607 := by
  have hcl : clampSample f = f := by
    rw [clampSample, min_eq_right h2]
    exact max_eq_right h1
  have hq : FromFloat f = truncToInt (f * 8388607) := by rw [FromFloat, hcl]
  have hr := FromFloat_range f
  have hrt : u32_to_s24 (s24_to_u32 (FromFloat f)) = FromFloat f :=
    s24_u32_roundtrip _ (by omega) hr.2
  rw [ToFloat, hrt, hq]
  have key := truncToInt_le_abs (f * 8388607)
  have hsplit : ((truncToInt (f * 8388607) : Int) : ℚ) * (1 / 8388607) - f
      = (((truncToInt (f * 8388607) : Int) : ℚ) - f * 8388607) * (1 / 8388607) := by
    ring
  rw [hsplit, abs_mul, abs_of_pos (by norm_num : (0 : ℚ) < 1 / 8388607)]
  have := mul_le_mul_of_nonneg_right (le_of_lt key) (by norm_num : (0 : ℚ) ≤ 1 / 8388607)
  linarith

/-- C4 (witness): the round-trip bound evaluated at f = 1/2. -/
theorem claim_C4_witness :
    (-1 ≤ (1 / 2 : ℚ) ∧ (1 / 2 : ℚ) ≤ 1) ∧
    |ToFloat (s24_to_u32 (FromFloat (1 / 2))) - (1 / 2 : ℚ)| ≤ 1 / 8388607 :=
  ⟨⟨by norm_num, by norm_num⟩, claim_C4_roundtrip (1 / 2) (by norm_num) (by norm_num)⟩

/-- C5: in every alternating PutChunk/GetChunk sequence of valid-size calls,
the raw samples GetChunk consumes in period k are exactly the block delivered
by period k's PutChunk; PutChunk never touches the slot selector, and each
period's GetChunk flips it exactly once. -/
theorem claim_C5_double_buffer (s₀ : AudioState) (cs : Nat → Fin 256 → Nat) (k : Nat) :
    consumedInPeriod (stateAfterPeriods s₀ cs k) (cs k) = cs k ∧
    (PutChunk (stateAfterPeriods s₀ cs k) (cs k) 256).useBufferA
      = (stateAfterPeriods s₀ cs k).useBufferA ∧
    (stepPeriod (stateAfterPeriods s₀ cs k) (cs k)).useBufferA
      = !(stateAfterPeriods s₀ cs k).useBufferA := by
  refine ⟨?_, ?_, ?_⟩
  · funext i
    cases hb : (stateAfterPeriods s₀ cs k).useBufferA <;>
      simp [consumedInPeriod, PutChunk, hb]
  · cases hb : (stateAfterPeriods s₀ cs k).useBufferA <;> simp [PutChunk, hb]
  · cases hb : (stateAfterPeriods s₀ cs k).useBufferA <;>
      simp [stepPeriod, PutChunk, GetChunk, hb]

/-- C6: a chunk-size mismatch is rejected without any effect: PutChunk leaves
the state (buffers and slot selector) unchanged, and GetChunk returns 0,
writes nothing into the caller's block, and leaves the state unchanged. -/
theorem claim_C6_size_mismatch (s : AudioState) (c : Fin 256 → Nat) (n : Nat)
    (h : n ≠ 256) :
    PutChunk s c n = s ∧ GetChunk s n = ⟨s, none, 0⟩ := by
  rw [PutChunk, GetChunk]
  simp [h]

/-- A fully idle concrete CAudio state used to evaluate the size-mismatch
rejection. -/
def zeroAudio : AudioState := ⟨fun _ => 0, fun _ => 0, true, true, true, true⟩

/-- C6 (witness): the rejection evaluated at chunk size 100. -/
theorem claim_C6_witness :
    (100 : Nat) ≠ 256 ∧
    (PutChunk zeroAudio (fun _ => 0) 100 = zeroAudio ∧
      GetChunk zeroAudio 100 = ⟨zeroAudio, none, 0⟩) :=
  ⟨by decide, claim_C6_size_mismatch zeroAudio (fun _ => 0) 100 (by decide)⟩

/-- In a wrapped buffer, the slot about to be overwritten (index n mod
capacity) holds the oldest sample of the window, written max steps ago. -/
theorem lastWrite_oldest {max n : Nat} (hmax : 0 < max) (hn : max ≤ n) :
    lastWrite max n (n % max) = n - max := by
  have hd := Nat.div_add_mod n max
  have hq : 1 ≤ n / max := (Nat.one_le_div_iff hmax).mpr hn
  have hstep : max * (n / max - 1) + max = max * (n / max) := by
    rw [← Nat.mul_succ]
    congr 1
    omega
  have he : n - 1 - n % max = max * (n / max - 1) + (max - 1) := by omega
  rw [lastWrite, he, Nat.mul_add_mod, Nat.mod_eq_of_lt (by omega)]
  omega

/-- C7: the statistics collector's valid-sample count never decreases, equals
min(n, capacity) after n completed timings (so it grows by one per timing
until capacity and then stays there); once full, the write of timing n lands
in slot n mod capacity, which until then held the sample of timing n -
capacity (the oldest); and the average and maximum accessors then range
exactly over the most recent `capacity` samples. -/
theorem claim_C7_statistics (max : Nat) (v : Nat → ℚ) (n : Nat)
    (hmax : 0 < max) (hn : max ≤ n) :
    (∀ m, (completedTimings max v m).validSamples
      ≤ (completedTimings max v (m + 1)).validSamples) ∧
    (∀ m, (completedTimings max v m).validSamples = min m max) ∧
    (completedTimings max v n).validSamples = max ∧
    (completedTimings max v (n + 1)).cpuUsages (n % max) = v n ∧
    (completedTimings max v n).cpuUsages (n % max) = v (n - max) ∧
    GetAverageCPUUsagePercent (completedTimings max v n)
      = (∑ i in Finset.range max, v (n - max + i)) / max ∧
    (∃ i, i < max ∧
      GetMaxCPUUsagePercent (completedTimings max v n) = v (n - max + i)) ∧
    (∀ i, i < max →
      v (n - max + i) ≤ GetMaxCPUUsagePercent (completedTimings max v n)) := by
  have hval : ∀ m, (completedTimings max v m).validSamples = min m max := by
    intro m
    exact (completedTimings_spec max v hmax m).2.2.1
  have hvn : (completedTimings max v n).validSamples = max := by
    rw [hval]
    omega
  refine ⟨?_, hval, hvn, ?_, ?_, ?_, ?_, ?_⟩
  · intro m
    rw [hval, hval]
    omega
  · have hspec := (completedTimings_spec max v hmax (n + 1)).2.2.2.2
    have hjm : n % max < max := Nat.mod_lt _ hmax
    rw [hspec, if_pos ⟨hjm, by have := Nat.mod_le n max; omega⟩, lastWrite_self]
  · have hspec := (completedTimings_spec max v hmax n).2.2.2.2
    have hjm : n % max < max := Nat.mod_lt _ hmax
    rw [hspec, if_pos ⟨hjm, by omega⟩, lastWrite_oldest hmax hn]
  · rw [GetAverageCPUUsagePercent, hvn, if_neg (by omega), CalculateAverage,
      if_neg (by omega), buffer_window_sum max n v hmax hn]
  · obtain ⟨i, hi, he⟩ := (buffer_window_max max n v hmax hn).1
    refine ⟨i, hi, ?_⟩
    rw [GetMaxCPUUsagePercent, hvn, if_neg (by omega), he]
  · intro i hi
    have hb := (buffer_window_max max n v hmax hn).2 i hi
    rw [GetMaxCPUUsagePercent, hvn, if_neg (by omega)]
    exact hb

/-- C7 (witness): capacity 2, timings 0,1,2 storing the sample values 10, 20,
30: afterwards the count is 2 and the accessors cover samples 20 and 30. -/
theorem claim_C7_witness :
    (0 : Nat) < 2 ∧ (2 : Nat) ≤ 3 ∧
    ((∀ m, (completedTimings 2 (fun i => 10 * (i + 1)) m).validSamples
      ≤ (completedTimings 2 (fun i => 10 * (i + 1)) (m + 1)).validSamples) ∧
    (∀ m, (completedTimings 2 (fun i => 10 * (i + 1)) m).validSamples = min m 2) ∧
    (completedTimings 2 (fun i => 10 * (i + 1)) 3).validSamples = 2 ∧
    (completedTimings 2 (fun i => 10 * (i + 1)) 4).cpuUsages (3 % 2)
      = (fun i : Nat => (10 : ℚ) * (i + 1)) 3 ∧
    (completedTimings 2 (fun i => 10 * (i + 1)) 3).cpuUsages (3 % 2)
      = (fun i : Nat => (10 : ℚ) * (i + 1)) (3 - 2) ∧
    GetAverageCPUUsagePercent (completedTimings 2 (fun i => 10 * (i + 1)) 3)
      = (∑ i in Finset.range 2, (fun i : Nat => (10 : ℚ) * (i + 1)) (3 - 2 + i)) / 2 ∧
    (∃ i, i < 2 ∧ GetMaxCPUUsagePercent (completedTimings 2 (fun i => 10 * (i + 1)) 3)
      = (fun i : Nat => (10 : ℚ) * (i + 1)) (3 - 2 + i)) ∧
    (∀ i, i < 2 → (fun i : Nat => (10 : ℚ) * (i + 1)) (3 - 2 + i)
      ≤ GetMaxCPUUsagePercent (completedTimings 2 (fun i => 10 * (i + 1)) 3))) :=
  ⟨by decide, by decide,
    claim_C7_statistics 2 (fun i => 10 * (i + 1)) 3 (by decide) (by decide)⟩

/-- C8 (counterexample): a mute request of 2, outside the advertised range
0..1, is not rejected: SetControl returns TRUE, writes registers, and changes
the stored state. -/
theorem claim_C8_counterexample :
    (GetControlInfo ControlMute JackDefaultIn ChannelAll).RangeMax < 2 ∧
    (SetControl initController ControlMute JackDefaultIn ChannelAll 2).2 = true ∧
    (SetControl initController ControlMute JackDefaultIn ChannelAll 2).1
      ≠ initController ∧
    (SetControl initController ControlMute JackDefaultIn ChannelAll 2).1.regWrites
      ≠ [] := by
  refine ⟨by decide, ?_, ?_, ?_⟩ <;> decide

/-- C8 (amended): volume requests are validated against the advertised ranges
and rejected — FALSE, no register write, state unchanged — when out of range
(input jacks -17..30 dB, output jacks -73..6 dB); mute requests, however, are
not validated: any value is accepted and silently coerced to its
truth value, so out-of-range mute values such as 2 behave exactly like 1. -/
theorem claim_C8_volume_validated :
    (∀ (s : ControllerState) (j : TJack) (ch : TChannel) (x : Int),
      IsInputJack j = true → ¬ (-17 ≤ x ∧ x ≤ 30) →
        SetControl s ControlVolume j ch x = (s, false)) ∧
    (∀ (s : ControllerState) (j : TJack) (ch : TChannel) (x : Int),
      IsInputJack j = false → ¬ (-73 ≤ x ∧ x ≤ 6) →
        SetControl s ControlVolume j ch x = (s, false)) ∧
    (∀ (s : ControllerState) (j : TJack) (ch : TChannel) (x : Int),
      SetControl s ControlMute j ch x
        = SetControl s ControlMute j ch (if x = 0 then 0 else 1)) := by
  refine ⟨?_, ?_, ?_⟩
  · intro s j ch x hj hx
    rw [SetControl]
    simp [hj, hx]
  · intro s j ch x hj hx
    rw [SetControl]
    simp [hj, hx]
  · intro s j ch x
    by_cases hx : x = 0 <;> simp [SetControl, hx]

/-- C8 (witness): an input-volume request of 31 dB, one above the advertised
maximum, is rejected with no write. -/
theorem claim_C8_witness :
    IsInputJack JackDefaultIn = true ∧ ¬ (-17 ≤ (31 : Int) ∧ (31 : Int) ≤ 30) ∧
    SetControl initController ControlVolume JackDefaultIn ChannelAll 31
      = (initController, false) :=
  ⟨by decide, by decide,
    claim_C8_volume_validated.1 initController JackDefaultIn ChannelAll 31
      (by decide) (by decide)⟩

/-- C9: a byte with the status bit set arriving while a data byte is expected
discards the in-progress message and is re-evaluated exactly as a fresh
status byte; in particular [0x90, 0x80, 0x3C, 0x64] yields exactly one
normalized event, NoteOff on channel 0 with key 60 (velocity 100). -/
theorem claim_C9_parser_resync :
    (∀ (p : MidiParser) (b : Nat), p.state ≠ ParserState.Idle → 0x80 ≤ b →
      processMidiByte p b = processMidiByte initMidi b) ∧
    (feedBytes initMidi [0x90, 0x80, 0x3C, 0x64]).2
      = [⟨MidiEventType.NoteOff, 0, 0x3C, 0x64⟩] := by
  constructor
  · intro p b _hp hb
    rw [processMidiByte, processMidiByte, if_pos hb, if_pos hb]
  · decide

/-- C9 (witness): the resync rule evaluated on a parser that has staged the
status 0x90 and expects data, receiving the status byte 0x80. -/
theorem claim_C9_witness :
    (⟨ParserState.ExpectData1, 0x90, 0⟩ : MidiParser).state ≠ ParserState.Idle ∧
    (0x80 : Nat) ≤ 0x80 ∧
    processMidiByte ⟨ParserState.ExpectData1, 0x90, 0⟩ 0x80
      = processMidiByte initMidi 0x80 :=
  ⟨by decide, by decide,
    claim_C9_parser_resync.1 ⟨ParserState.ExpectData1, 0x90, 0⟩ 0x80
      (by decide) (by decide)⟩

/-- C10: for every signed integer v with -2^23 ≤ v ≤ 2^23 - 1, packing it
into the 32-bit wire word and unpacking it again is the identity:
u32_to_s24 (s24_to_u32 v) = v. -/
theorem claim_C10_pack_unpack_id (v : Int) (h1 : -8388608 ≤ v) (h2 : v ≤ 8388607) :
    u32_to_s24 (s24_to_u32 v) = v :=
  s24_u32_roundtrip v h1 h2

/-- C10 (witness): the identity evaluated at v = -12345. -/
theorem claim_C10_witness :
    -8388608 ≤ (-12345 : Int) ∧ (-12345 : Int) ≤ 8388607 ∧
    u32_to_s24 (s24_to_u32 (-12345)) = -12345 :=
  ⟨by decide, by decide, claim_C10_pack_unpack_id (-12345) (by decide) (by decide)⟩

end Circle
